import Mathlib

/-!
Shallow embedding of the `log` package (log.go, functiopn.go, utils.go).

The package is a process-wide logger: a severity gate, a record formatter with a
fixed list of field names, a rotation and retention daemon, and a side channel.
Pure functions of the source are Lean functions of the same name.  What the
operating system or a library hands to the code (the clock, the host name, the
directory listing, the outcome of a rename) is an explicit argument.
-/

namespace SykLog

/-! ## Severity levels (log.go, functiopn.go) -/

/-- Level of log.go: `FATAL Level = iota` up to `ALL`. -/
inductive Level where
  | FATAL
  | ERROR
  | WARNING
  | INFO
  | DEBUG
  | ALL
  deriving DecidableEq, Repr

/-- The integer behind a `Level` constant (`iota` numbering). -/
def Level.rank : Level → Nat
  | .FATAL => 0
  | .ERROR => 1
  | .WARNING => 2
  | .INFO => 3
  | .DEBUG => 4
  | .ALL => 5

/-- The Go comparison `a > b` on levels is the comparison of their integers. -/
def Level.gt (a b : Level) : Bool := decide (b.rank < a.rank)

/-- Function levelToString of functiopn.go. -/
def levelToString : Level → String
  | .FATAL => "FATAL"
  | .ERROR => "ERROR"
  | .WARNING => "WARNING"
  | .DEBUG => "DEBUG"
  | .INFO => "INFO"
  | .ALL => "ALL"

/-- Function stringToLevel of functiopn.go: a switch with fall-through to `ALL`. -/
def stringToLevel (level : String) : Level :=
  if level = "FATAL" then .FATAL
  else if level = "ERROR" then .ERROR
  else if level = "WARNING" then .WARNING
  else if level = "DEBUG" then .DEBUG
  else if level = "INFO" then .INFO
  else .ALL

/-! ## Values and their text (utils.go) -/

/-- A Go `interface{}` value as `ToString` tells them apart, one constructor per
branch of its type switch.  A float is carried as the text
`strconv.FormatFloat(v, 'f', -1, bits)` gives for it, and a non-nil value of a
type outside the switch as the outcome of `json.Marshal` on it. -/
inductive Value where
  /-- The interface value with no dynamic type (`reflect.TypeOf` gives nil). -/
  | nil
  | bool (v : Bool)
  | float32 (formatted : String)
  | float64 (formatted : String)
  | int (v : Int)
  | int8 (v : Int)
  | int16 (v : Int)
  | int32 (v : Int)
  | int64 (v : Int)
  | uint (v : Nat)
  | uint8 (v : Nat)
  | uint16 (v : Nat)
  | uint32 (v : Nat)
  | uint64 (v : Nat)
  | string (v : String)
  /-- A `[]byte`; `none` is the nil slice. -/
  | bytes (v : Option String)
  /-- A value implementing `error`, with the text its `Error()` returns. -/
  | error (msg : String)
  /-- A nil map such as `map[string]int(nil)`. -/
  | nilMap
  /-- A nil slice of an element type other than byte. -/
  | nilSlice
  /-- A nil pointer of a type that does not implement `error`. -/
  | nilPointer
  /-- Any other non-nil value, with the bytes `json.Marshal` returns for it
  (`none` when it returns an error). -/
  | other (marshalled : Option String)
  deriving DecidableEq, Repr

/-- The bytes `json.Marshal` returns, its error discarded (`b, _ := ...`): a nil
map, slice or pointer is encoded as the JSON value `null`; on an error the byte
slice is nil and `string(b)` is empty. -/
def jsonMarshalText : Value → String
  | .nilMap => "null"
  | .nilSlice => "null"
  | .nilPointer => "null"
  | .other (some b) => b
  | _ => ""

/-- Function strconv.FormatBool. -/
def FormatBool (b : Bool) : String := if b then "true" else "false"

/-- Function ToString of utils.go. -/
def ToString (value : Value) : String :=
  match value with
  | .nil => ""
  | .bool v => FormatBool v
  | .float32 f => f
  | .float64 f => f
  | .int v => toString v
  | .int8 v => toString v
  | .int16 v => toString v
  | .int32 v => toString v
  | .int64 v => toString v
  | .uint v => toString v
  | .uint8 v => toString v
  | .uint16 v => toString v
  | .uint32 v => toString v
  | .uint64 v => toString v
  | .string v => v
  | .bytes none => ""
  | .bytes (some v) => v
  | .error msg => msg
  | v => jsonMarshalText v

/-! ## Records and their serialisation (functiopn.go) -/

/-- A Go `map[string]interface{}`: an association list read by its first entry
for a key. -/
abbrev FieldMap := List (String × Value)

/-- The map read `v, ok := m[k]`. -/
def FieldMap.get (m : FieldMap) (k : String) : Option Value := List.lookup k m

/-- The map write `m[k] = v`. -/
def FieldMap.set (m : FieldMap) (k : String) (v : Value) : FieldMap :=
  (k, v) :: m.filter (fun e => e.1 != k)

/-- Function strings.HasSuffix. -/
def HasSuffix (s suffix : String) : Bool := suffix.data.isSuffixOf s.data

/-- Function strings.TrimSuffix: one occurrence of the suffix is cut off. -/
def TrimSuffix (s suffix : String) : String :=
  if HasSuffix s suffix then ⟨s.data.take (s.data.length - suffix.data.length)⟩ else s

/-- The list `keys` of mapToStr. -/
def keys : List String :=
  ["level", "file", "trace_id", "msg", "cost", "timestamp", "host", "data", "client_ip", "type"]

/-- The text `fmt.Sprintf("%v=%s", k, ToString(v))`. -/
def pairText (k : String) (v : Value) : String := k ++ "=" ++ ToString v

/-- The body of the loop of mapToStr for one key. -/
def mapToStrStep (m : FieldMap) (str k : String) : String :=
  match m.get k with
  | some v => (str ++ pairText k v) ++ "||"
  | none => str

/-- Function mapToStr of functiopn.go. -/
def mapToStr (m : FieldMap) : String :=
  TrimSuffix (keys.foldl (mapToStrStep m) "") "||"

/-- The pairs the specification lists: for each name of the fixed list that is a
key of the mapping, in list order, `name=text`. -/
def presentPairs (m : FieldMap) : List String :=
  keys.filterMap (fun k => (m.get k).map (pairText k))

/-! ## The emit pipeline (log.go) -/

/-- Struct Config of log.go (field `Type` is `Type_` here). -/
structure Config where
  Type_ : String
  Level : String
  Dir : String
  FileName : String
  RotateByDaily : Bool
  RotateByHour : Bool
  KeepDays : Int
  deriving DecidableEq, Repr

/-- What the runtime and the operating system answer during one call of
`output`: the value bound under "TraceID" in goroutine-local storage, the
process id, the caller location, the formatted clock and `os.Hostname()`. -/
structure Env where
  boundTraceID : Option String
  pid : Int
  curFileName : String
  timestamp : String
  hostname : Except String String

/-- Function GetTraceID of log.go. -/
def GetTraceID (env : Env) : String :=
  match env.boundTraceID with
  | some v => v
  | none => toString env.pid

/-- The first result of `os.Hostname()`: the name, or the empty string together
with the error. -/
def hostnameText : Except String String → String
  | .ok name => name
  | .error _ => ""

/-- The mapping as `output` has filled it when it reaches `mapToStr`. -/
def outputMap (env : Env) (m : FieldMap) : FieldMap :=
  let m := m.set "trace_id" (.string (GetTraceID env))
  let m := if (m.get "file").isSome then m else m.set "file" (.string env.curFileName)
  let m := m.set "timestamp" (.string env.timestamp)
  m.set "host" (.string (hostnameText env.hostname))

/-- Function output of log.go: the line handed to `l.logger.Println`, or none
when the configured type is "none". -/
def output (conf : Config) (env : Env) (m : FieldMap) : Option String :=
  if conf.Type_ != "none" then some (mapToStr (outputMap env m)) else none

/-- What a leveled emit operation did: returned at the gate, or ran `output` on
a mapping. -/
inductive Emit where
  | filtered
  | emitted (m : FieldMap) (line : Option String)
  deriving DecidableEq, Repr

/-- Whether `output` was reached. -/
def Emit.isEmitted : Emit → Bool
  | .filtered => false
  | .emitted _ _ => true

/-- Function print of log.go. -/
def print (conf : Config) (env : Env) (level : Level) (m : FieldMap) : Emit :=
  if level.gt (stringToLevel conf.Level) then .filtered
  else
    let m := m.set "level" (.string (levelToString level))
    .emitted (outputMap env m) (output conf env m)

/-- Function printThrift of log.go; `marshalled` is what `json.Marshal(msg)`
returns. -/
def printThrift (conf : Config) (env : Env) (level : Level)
    (marshalled : Except String String) : Emit :=
  if level.gt (stringToLevel conf.Level) then .filtered
  else
    let m : FieldMap := []
    let m := match marshalled with
      | .error e => m.set "err" (.error e)
      | .ok byteMsg => m.set "msg" (.string byteMsg)
    let m := m.set "level" (.string (levelToString level))
    .emitted (outputMap env m) (output conf env m)

/-- Function printf of log.go; `formatted` is `fmt.Sprintf(format, args...)`. -/
def printf (conf : Config) (env : Env) (level : Level) (formatted : String) : Emit :=
  if level.gt (stringToLevel conf.Level) then .filtered
  else
    let m : FieldMap := []
    let m := m.set "msg" (.string formatted)
    let m := m.set "level" (.string (levelToString level))
    .emitted (outputMap env m) (output conf env m)

/-! ## Clock values and period keys (functiopn.go) -/

/-- What the code reads of a `time.Time`: `Year()`, `Month()`, `Day()`, `Hour()`. -/
structure Time where
  Year : Int
  Month : Nat
  Day : Nat
  Hour : Nat
  deriving DecidableEq, Repr

/-- The ranges the `time` package keeps: month 1 to 12, day 1 to 31, hour 0 to 23. -/
def Time.valid (t : Time) : Prop :=
  1 ≤ t.Month ∧ t.Month ≤ 12 ∧ 1 ≤ t.Day ∧ t.Day ≤ 31 ∧ t.Hour ≤ 23

instance (t : Time) : Decidable t.valid := by
  unfold Time.valid
  infer_instance

/-- The date and hour of `t` are strictly earlier than those of `c`: the order of
the tuples (year, month, day, hour). -/
def Time.before (t c : Time) : Prop :=
  t.Year < c.Year ∨ (t.Year = c.Year ∧ (t.Month < c.Month ∨ (t.Month = c.Month ∧
    (t.Day < c.Day ∨ (t.Day = c.Day ∧ t.Hour < c.Hour)))))

instance (t c : Time) : Decidable (t.before c) := by
  unfold Time.before
  infer_instance

/-- The last year a `time.Time` reaches. -/
def maxYear : Int := 292277026596

/-- The character of a decimal digit, `'0' + d`. -/
def digitChar (d : Nat) : Char := Char.ofNat (48 + d)

/-- Decimal digits of a number, most significant first, by repeated division. -/
def decimalAux : Nat → Nat → List Char
  | 0, _ => []
  | fuel + 1, n =>
    if n < 10 then [digitChar n] else decimalAux fuel (n / 10) ++ [digitChar (n % 10)]

/-- Decimal digits of a number; `0` gives one digit. -/
def decimal (n : Nat) : List Char := decimalAux (n + 1) n

/-- Function appendInt of package time: sign, zero padding up to `width`, digits. -/
def appendInt (x : Int) (width : Nat) : List Char :=
  let ds := decimal x.natAbs
  (if x < 0 then ['-'] else []) ++ List.replicate (width - ds.length) '0' ++ ds

/-- Function getDayTime: `t.Format("20060102")`. -/
def getDayTime (t : Time) : String :=
  ⟨appendInt t.Year 4 ++ appendInt t.Month 2 ++ appendInt t.Day 2⟩

/-- Function getHourTime: `t.Format("2006010215")`. -/
def getHourTime (t : Time) : String :=
  ⟨appendInt t.Year 4 ++ appendInt t.Month 2 ++ appendInt t.Day 2 ++ appendInt t.Hour 2⟩

/-- Function getCurrentTime of functiopn.go; `now` is `time.Now()`. -/
def getCurrentTime (conf : Config) (now : Time) : String :=
  if conf.RotateByDaily = true then getDayTime now
  else if conf.RotateByHour = true then getHourTime now
  else ""

/-- The conversion `uint64(x)` of a Go `int`. -/
def toUint64 (x : Int) : Nat := (x % (2 ^ 64 : Int)).toNat

/-- Function getTimeInt of functiopn.go, in `uint64` arithmetic. -/
def getTimeInt (now : Time) : Nat :=
  (toUint64 now.Year * 1000000 + toUint64 now.Month * 10000 + toUint64 now.Day * 100
    + toUint64 now.Hour) % 2 ^ 64

/-! ## Parsing a file name (functiopn.go, log.go) -/

/-- Whether a character is one of `0` to `9`. -/
def isDigit (c : Char) : Bool := decide (48 ≤ c.toNat) && decide (c.toNat ≤ 57)

/-- The number a run of digits spells: `n = n*10 + int(ch - '0')` per character. -/
def digitsValue (ds : List Char) : Nat := ds.foldl (fun n ch => n * 10 + (ch.toNat - 48)) 0

/-- Function strconv.Atoi on a 64-bit platform: an optional sign, then one or
more decimal digits; anything else, or a value outside `int`, is an error. -/
def Atoi (s : String) : Option Int :=
  let neg := s.data.head? = some '-'
  let ds := if s.data.head? = some '-' ∨ s.data.head? = some '+' then s.data.tail else s.data
  if ds.isEmpty || !ds.all isDigit then none
  else
    let n := digitsValue ds
    if neg then (if 2 ^ 63 < n then none else some (-(n : Int)))
    else (if 2 ^ 63 ≤ n then none else some (n : Int))

/-- Function strings.Split for a separator of one character. -/
def Split (sep : Char) : List Char → List (List Char)
  | [] => [[]]
  | c :: cs =>
    if c = sep then [] :: Split sep cs
    else match Split sep cs with
      | [] => [[c]]
      | seg :: rest => (c :: seg) :: rest

/-- The element `strs[len(strs)-1]`. -/
def lastSegment (fileName : String) : String :=
  ⟨(Split '.' fileName.data).getLastD []⟩

/-- Function shouldDel of functiopn.go. -/
def shouldDel (fileName : String) (keepTime : Time) : Bool :=
  match Atoi (lastSegment fileName) with
  | none => false
  | some tint => decide (toUint64 tint < getTimeInt keepTime)

/-- Whether the pattern `\.log\.20[0-9]{8}` matches at the start of the text. -/
def matchHere (s : List Char) : Bool :=
  ".log.20".data.isPrefixOf s && decide (8 ≤ (s.drop 7).length) && ((s.drop 7).take 8).all isDigit

/-- The leftmost match of the pattern `\.log\.20[0-9]{8}`, if there is one. -/
def findMatch : List Char → Option (List Char)
  | [] => none
  | c :: cs => if matchHere (c :: cs) then some ((c :: cs).take 15) else findMatch cs

/-- Method `reg.FindString` for the pattern of rotateDaemon: the text of the
leftmost match, or the empty string. -/
def FindString (name : String) : String :=
  match findMatch name.data with
  | some matched => ⟨matched⟩
  | none => ""

/-! ## Dates (package time) -/

/-- Days from 1970-01-01 to a civil date of the proleptic Gregorian calendar. -/
def daysFromCivil (y : Int) (m d : Nat) : Int :=
  let y := if m ≤ 2 then y - 1 else y
  let era := y / 400
  let yoe := y - era * 400
  let mp : Int := if 2 < m then (m : Int) - 3 else (m : Int) + 9
  let doy := (153 * mp + 2) / 5 + (d : Int) - 1
  let doe := yoe * 365 + yoe / 4 - yoe / 100 + doy
  era * 146097 + doe - 719468

/-- The civil date of a day count from 1970-01-01. -/
def civilFromDays (z : Int) : Int × Nat × Nat :=
  let z := z + 719468
  let era := z / 146097
  let doe := z - era * 146097
  let yoe := (doe - doe / 1460 + doe / 36524 - doe / 146096) / 365
  let y := yoe + era * 400
  let doy := doe - (365 * yoe + yoe / 4 - yoe / 100)
  let mp := (5 * doy + 2) / 153
  let d := doy - (153 * mp + 2) / 5 + 1
  let m := if mp < 10 then mp + 3 else mp - 9
  (if m ≤ 2 then y + 1 else y, m.toNat, d.toNat)

/-- Method `t.AddDate(0, 0, days)`: the same hour, `days` calendar days later. -/
def AddDate (t : Time) (days : Int) : Time :=
  let c := civilFromDays (daysFromCivil t.Year t.Month t.Day + days)
  { Year := c.1, Month := c.2.1, Day := c.2.2, Hour := t.Hour }

/-! ## The rotation and retention daemon (log.go) -/

/-- The path `path.Join(dir, name)`. -/
structure Path where
  dir : String
  name : String
  deriving DecidableEq, Repr

/-- Where the logger writes: standard output or a file opened for appending. -/
inductive Target where
  | stdout
  | file (p : Path)
  deriving DecidableEq, Repr

/-- The fields of the singleton `l` the daemon and the initialisation touch. -/
structure Log where
  logger : Target
  config : Config
  rotateTime : String
  deriving DecidableEq, Repr

/-- A call the code makes on the file system, or on the logger itself. -/
inductive Effect where
  /-- Call `os.Rename(old, new)`. -/
  | rename (old new : Path)
  /-- Call `Warningf("rotateDaemon failed : %s", err.Error())`. -/
  | warningf (err : String)
  /-- Call `os.OpenFile(path, O_APPEND|O_CREATE|O_WRONLY, 0644)`. -/
  | openFile (p : Path)
  /-- Call `syslog.Fatal(err)`, which ends the process. -/
  | fatal (err : String)
  /-- Call `os.Remove(path)`. -/
  | remove (p : Path)
  deriving DecidableEq, Repr

/-- What the world answers during one iteration of the loop of rotateDaemon:
the clock read in getCurrentTime, the errors of `os.Rename` and `os.OpenFile`
(none on success), the names `ioutil.ReadDir` lists (none on an error) and the
clock read for `minKeepTime`. -/
structure Tick where
  now : Time
  renameErr : Option String
  openErr : Option String
  files : Option (List String)
  sweepNow : Time
  deriving DecidableEq, Repr

/-- Function newLogger of log.go: the new target, or none when the process
exits, and the calls made. -/
def newLogger (conf : Config) (openErr : Option String) : Option Target × List Effect :=
  if conf.Type_ = "file" then
    let path : Path := ⟨conf.Dir, conf.FileName⟩
    match openErr with
    | some err => (none, [.openFile path, .fatal err])
    | none => (some (.file path), [.openFile path])
  else (some .stdout, [])

/-- The first half of an iteration of rotateDaemon (the comment `切割`): the
state afterwards, or none when the process has exited, and the calls made. -/
def rotateStep (l : Log) (w : Tick) : Option Log × List Effect :=
  let currentTime := getCurrentTime l.config w.now
  if currentTime != l.rotateTime then
    let old : Path := ⟨l.config.Dir, l.config.FileName⟩
    let new : Path := ⟨l.config.Dir, l.config.FileName ++ ("." ++ l.rotateTime)⟩
    let renamed : List Effect := match w.renameErr with
      | some err => [.rename old new, .warningf err]
      | none => [.rename old new]
    match newLogger l.config w.openErr with
    | (some target, opened) =>
      (some { l with logger := target, rotateTime := currentTime }, renamed ++ opened)
    | (none, opened) => (none, renamed ++ opened)
  else (some l, [])

/-- Whether the sweep removes a listed name: the condition
`reg.FindString(file.Name()) != "" && shouldDel(file.Name(), minKeepTime)`. -/
def sweepDeletes (name : String) (minKeepTime : Time) : Bool :=
  FindString name != "" && shouldDel name minKeepTime

/-- The second half of an iteration of rotateDaemon (the comment `删除`). -/
def sweepStep (l : Log) (w : Tick) : List Effect :=
  let minKeepTime := AddDate w.sweepNow (-l.config.KeepDays)
  match w.files with
  | some files =>
    (files.filter (fun name => sweepDeletes name minKeepTime)).map
      (fun name => Effect.remove ⟨l.config.Dir, name⟩)
  | none => []

/-- One iteration of the loop of rotateDaemon, after its sleep. -/
def rotateDaemonTick (l : Log) (w : Tick) : Option Log × List Effect :=
  match rotateStep l w with
  | (some l', effects) => (some l', effects ++ sweepStep l' w)
  | (none, effects) => (none, effects)

/-- Iterations of the loop one after another, until the list ends or the process
exits. -/
def runTicks : Log → List Tick → Option Log × List Effect
  | l, [] => (some l, [])
  | l, w :: ws =>
    match rotateDaemonTick l w with
    | (some l', effects) =>
      let r := runTicks l' ws
      (r.1, effects ++ r.2)
    | (none, effects) => (none, effects)

/-- The renames among a list of calls. -/
def renamesOf (effects : List Effect) : List (Path × Path) :=
  effects.filterMap (fun e => match e with
    | .rename old new => some (old, new)
    | _ => none)

/-- The removals among a list of calls. -/
def removesOf (effects : List Effect) : List Path :=
  effects.filterMap (fun e => match e with
    | .remove p => some p
    | _ => none)

/-- The files opened among a list of calls. -/
def opensOf (effects : List Effect) : List Path :=
  effects.filterMap (fun e => match e with
    | .openFile p => some p
    | _ => none)

/-- The process as far as the daemon is concerned: the singleton and the number
of goroutines running rotateDaemon. -/
structure Proc where
  log : Log
  daemons : Nat
  deriving DecidableEq, Repr

/-- The process after the package `init`: configuration of type "std", the
logger on standard output, no daemon. -/
def initial : Proc :=
  { log := { logger := .stdout,
             config := { Type_ := "std", Level := "", Dir := "", FileName := "",
                         RotateByDaily := false, RotateByHour := false, KeepDays := 0 },
             rotateTime := "" },
    daemons := 0 }

/-- Function InitByConf of log.go; `now` is the clock read in getCurrentTime. -/
def InitByConf (p : Proc) (conf : Config) (now : Time) (openErr : Option String) :
    Option Proc × List Effect :=
  match newLogger conf openErr with
  | (some target, opened) =>
    (some { log := { logger := target, config := conf, rotateTime := getCurrentTime conf now },
            daemons := if conf.Type_ = "file" then p.daemons + 1 else p.daemons }, opened)
  | (none, opened) => (none, opened)

/-- One second of the process: an iteration of rotateDaemon when such a
goroutine runs, and nothing otherwise. -/
def procTick (p : Proc) (w : Tick) : Option Proc × List Effect :=
  if p.daemons = 0 then (some p, [])
  else match rotateDaemonTick p.log w with
    | (some l', effects) => (some { p with log := l' }, effects)
    | (none, effects) => (none, effects)

/-! ## The side channel (log.go) -/

/-- A buffered channel `chan string`: its capacity and the values queued. -/
structure Chan where
  cap : Nat
  buf : List String
  deriving DecidableEq, Repr

/-- What a call of OutPutToKafka2Algo comes to when no other goroutine touches
the channel meanwhile. -/
inductive Forward where
  /-- The send completed; the channel afterwards. -/
  | queued (ch : Chan)
  /-- The send found the buffer full: the caller waits for a receiver. -/
  | blocked
  /-- The else branch: the diagnostic is printed, the channel is untouched. -/
  | dropped
  deriving DecidableEq, Repr

/-- The mapping OutPutToKafka2Algo hands to ToString. -/
def kafkaMap (env : Env) (m : FieldMap) : FieldMap :=
  (m.set "timestamp" (.string env.timestamp)).set "host" (.string (hostnameText env.hostname))

/-- Function OutPutToKafka2Algo of log.go; `ch` is `l.chToKafka2Algo` (none for
a nil channel) and `marshal` is `json.Marshal` on the mapping. -/
def OutPutToKafka2Algo (ch : Option Chan) (marshal : FieldMap → Option String) (env : Env)
    (m : FieldMap) : Forward :=
  match ch with
  | some c =>
    if c.buf.length < 10000 then
      if c.buf.length < c.cap then
        .queued { c with buf := c.buf ++ [ToString (.other (marshal (kafkaMap env m)))] }
      else .blocked
    else .dropped
  | none => .dropped

/-- Function SetChKafka2Algo of log.go. -/
def SetChKafka2Algo (ch : Chan) : Option Chan := some ch


/-! ## Auxiliary definitions of the proofs -/

/-- The characters of pairs each followed by the separator. -/
def sepAll : List String → List Char
  | [] => []
  | p :: ps => p.data ++ '|' :: '|' :: sepAll ps

/-- The characters of pairs with the separator between neighbours. -/
def interData : List String → List Char
  | [] => []
  | [a] => a.data
  | a :: b :: rest => a.data ++ '|' :: '|' :: interData (b :: rest)

/-- The pairs of a mapping along any list of names. -/
def pairsAlong (m : FieldMap) (ks : List String) : List String :=
  ks.filterMap (fun k => (m.get k).map (pairText k))

/-- The integer a padded, possibly signed run of digits spells. -/
def signedValue (l : List Char) : Int :=
  if l.head? = some '-' then -(digitsValue l.tail : Int) else (digitsValue l : Int)

/-- Two times on the same calendar day. -/
def Time.sameDay (a b : Time) : Prop :=
  a.Year = b.Year ∧ a.Month = b.Month ∧ a.Day = b.Day

instance (a b : Time) : Decidable (a.sameDay b) := by
  unfold Time.sameDay
  infer_instance

/-! # Theorems -/

/-! ## Severity gate -/

/-- C1: a leveled emit operation (print, printf, printThrift) reaches `output`
exactly when the rank of its level is at most the rank of the configured
threshold, with ranks FATAL=0 < ERROR < WARNING < INFO < DEBUG < ALL=5; a
threshold text that is "ALL" or none of the five level names resolves to ALL and
every level is emitted. -/
theorem print_emits_iff_rank_le (conf : Config) (env : Env) (L : Level) (m : FieldMap)
    (formatted : String) (marshalled : Except String String) :
    ((print conf env L m).isEmitted = true ↔ L.rank ≤ (stringToLevel conf.Level).rank)
    ∧ ((printf conf env L formatted).isEmitted = true
        ↔ L.rank ≤ (stringToLevel conf.Level).rank)
    ∧ ((printThrift conf env L marshalled).isEmitted = true
        ↔ L.rank ≤ (stringToLevel conf.Level).rank)
    ∧ (Level.FATAL.rank = 0 ∧ Level.ERROR.rank = 1 ∧ Level.WARNING.rank = 2
        ∧ Level.INFO.rank = 3 ∧ Level.DEBUG.rank = 4 ∧ Level.ALL.rank = 5)
    ∧ (conf.Level ∉ ["FATAL", "ERROR", "WARNING", "INFO", "DEBUG"] →
        stringToLevel conf.Level = Level.ALL
        ∧ (print conf env L m).isEmitted = true
        ∧ (printf conf env L formatted).isEmitted = true
        ∧ (printThrift conf env L marshalled).isEmitted = true) := by
  have hp : (print conf env L m).isEmitted = true
      ↔ L.rank ≤ (stringToLevel conf.Level).rank := by
    unfold print Level.gt
    by_cases h : (stringToLevel conf.Level).rank < L.rank
    · simp [h, Emit.isEmitted]
    · simp [h, Emit.isEmitted]; omega
  have hf : (printf conf env L formatted).isEmitted = true
      ↔ L.rank ≤ (stringToLevel conf.Level).rank := by
    unfold printf Level.gt
    by_cases h : (stringToLevel conf.Level).rank < L.rank
    · simp [h, Emit.isEmitted]
    · simp [h, Emit.isEmitted]; omega
  have ht : (printThrift conf env L marshalled).isEmitted = true
      ↔ L.rank ≤ (stringToLevel conf.Level).rank := by
    unfold printThrift Level.gt
    by_cases h : (stringToLevel conf.Level).rank < L.rank
    · simp [h, Emit.isEmitted]
    · simp [h, Emit.isEmitted]; omega
  refine ⟨hp, hf, ht, ⟨rfl, rfl, rfl, rfl, rfl, rfl⟩, ?_⟩
  intro hT
  have hall : stringToLevel conf.Level = Level.ALL := by
    simp only [List.mem_cons, List.mem_singleton, List.not_mem_nil, or_false, not_or] at hT
    obtain ⟨h1, h2, h3, h4, h5⟩ := hT
    simp [stringToLevel, h1, h2, h3, h4, h5]
  have hle : L.rank ≤ (stringToLevel conf.Level).rank := by
    rw [hall]; cases L <;> decide
  exact ⟨hall, hp.mpr hle, hf.mpr hle, ht.mpr hle⟩

/-- The witness of C1: threshold text "verbose" is none of the level names, and
DEBUG is emitted under it. -/
theorem print_emits_iff_rank_le_witness :
    stringToLevel "verbose" = Level.ALL
    ∧ (print ⟨"std", "verbose", "", "", false, false, 0⟩ ⟨none, 7, "f", "t", .ok "h"⟩
        Level.DEBUG []).isEmitted = true :=
  ⟨((print_emits_iff_rank_le ⟨"std", "verbose", "", "", false, false, 0⟩
      ⟨none, 7, "f", "t", .ok "h"⟩ Level.DEBUG [] "" (.ok "")).2.2.2.2 (by decide)).1,
   ((print_emits_iff_rank_le ⟨"std", "verbose", "", "", false, false, 0⟩
      ⟨none, 7, "f", "t", .ok "h"⟩ Level.DEBUG [] "" (.ok "")).2.2.2.2 (by decide)).2.1⟩

/-! ## Serialisation -/

theorem foldl_mapToStrStep_data (m : FieldMap) (ks : List String) (acc : String) :
    (ks.foldl (mapToStrStep m) acc).data = acc.data ++ sepAll (pairsAlong m ks) := by
  induction ks generalizing acc with
  | nil => simp [pairsAlong, sepAll]
  | cons k ks ih =>
    rw [List.foldl_cons, ih]
    unfold mapToStrStep pairsAlong
    cases h : m.get k with
    | none => simp [h]
    | some v =>
      simp only [List.filterMap_cons, h, Option.map_some', sepAll, String.data_append]
      simp [pairsAlong]

theorem intercalate_go_data (acc : String) (as : List String) :
    (String.intercalate.go acc "||" as).data = interData (acc :: as) := by
  induction as generalizing acc with
  | nil => simp [String.intercalate.go, interData]
  | cons a as ih =>
    rw [String.intercalate.go, ih]
    simp [interData, String.data_append]
    cases as <;> simp [interData]

theorem intercalate_data (ps : List String) :
    (String.intercalate "||" ps).data = interData ps := by
  cases ps with
  | nil => simp [String.intercalate, interData]
  | cons a as => simp [String.intercalate, intercalate_go_data]

theorem sepAll_eq (p : String) (ps : List String) :
    sepAll (p :: ps) = interData (p :: ps) ++ ['|', '|'] := by
  induction ps generalizing p with
  | nil => simp [sepAll, interData]
  | cons q qs ih =>
    rw [sepAll, ih q]
    simp [interData]

theorem trimSuffix_sepAll (s : String) (ps : List String) (h : s.data = sepAll ps) :
    TrimSuffix s "||" = String.intercalate "||" ps := by
  cases ps with
  | nil =>
    have hs : s = "" := by
      apply String.ext
      simpa [sepAll] using h
    subst hs
    decide
  | cons p ps =>
    rw [sepAll_eq] at h
    apply String.ext
    rw [intercalate_data]
    have hsuf : HasSuffix s "||" = true := by
      unfold HasSuffix
      rw [h]
      simp [List.isSuffixOf_iff_suffix]
    unfold TrimSuffix
    rw [if_pos hsuf, h]
    simp

theorem lookup_filter_ne (m : FieldMap) (k a : String) (hne : a ≠ k) :
    List.lookup a (m.filter (fun e => e.1 != k)) = List.lookup a m := by
  induction m with
  | nil => rfl
  | cons e es ih =>
    obtain ⟨ek, ev⟩ := e
    by_cases hek : ek = k
    · subst hek
      have h2 : (a == ek) = false := by simpa using hne
      simp [List.filter_cons, List.lookup_cons, h2, ih]
    · simp only [List.filter_cons, bne_iff_ne, ne_eq, hek, not_false_eq_true, decide_True,
        if_true, List.lookup_cons, ih]

theorem get_set_ne (m : FieldMap) (k a : String) (v : Value) (hne : a ≠ k) :
    (m.set k v).get a = m.get a := by
  unfold FieldMap.set FieldMap.get
  have h1 : (a == k) = false := by simpa using hne
  rw [List.lookup_cons, h1]
  exact lookup_filter_ne m k a hne

theorem get_set_self (m : FieldMap) (k : String) (v : Value) :
    (m.set k v).get k = some v := by
  simp [FieldMap.set, FieldMap.get, List.lookup_cons]

theorem mapToStr_eq_intercalate_aux (m : FieldMap) :
    mapToStr m = String.intercalate "||" (presentPairs m) := by
  unfold mapToStr
  apply trimSuffix_sepAll
  rw [foldl_mapToStrStep_data]
  simp [presentPairs, pairsAlong]

/-- C2: mapToStr gives the pairs `k=ToString(m[k])` of exactly the names of the
fixed list that are keys of the mapping, in list order, joined by "||" with no
leading or trailing separator; a key outside the list changes nothing, the empty
mapping gives the empty string, and the mapping with level "INFO", msg "hello"
and secret "x" gives `level=INFO||msg=hello`. -/
theorem mapToStr_eq_intercalate_presentPairs :
    (∀ m : FieldMap, mapToStr m = String.intercalate "||" (presentPairs m))
    ∧ (∀ (m : FieldMap) (k : String) (v : Value), k ∉ keys →
        mapToStr (m.set k v) = mapToStr m)
    ∧ mapToStr [] = ""
    ∧ mapToStr [("level", .string "INFO"), ("msg", .string "hello"), ("secret", .string "x")]
        = "level=INFO||msg=hello" := by
  have main : ∀ m : FieldMap, mapToStr m = String.intercalate "||" (presentPairs m) :=
    mapToStr_eq_intercalate_aux
  refine ⟨main, ?_, by decide, by decide⟩
  intro m k v hk
  rw [main, main]
  congr 1
  unfold presentPairs
  apply List.filterMap_congr
  intro a ha
  have hne : a ≠ k := fun h => hk (h ▸ ha)
  have : (FieldMap.set m k v).get a = m.get a := get_set_ne m k a v hne
  rw [this]

/-- The witness of C2: "secret" is outside the fixed list, and adding it to a
mapping leaves the line as it was. -/
theorem mapToStr_eq_intercalate_presentPairs_witness :
    "secret" ∉ keys
    ∧ mapToStr (FieldMap.set [("level", .string "INFO"), ("msg", .string "hello")]
        "secret" (.string "x"))
      = mapToStr [("level", .string "INFO"), ("msg", .string "hello")] :=
  ⟨by decide, mapToStr_eq_intercalate_presentPairs.2.1 _ "secret" (.string "x") (by decide)⟩

/-! ## The host field -/

/-- C9, as the claim states it, fails: with the lookup of the host name failing,
the mapping handed to mapToStr has the key `host`, bound to the empty string,
and the line ends in the pair `host=`. -/
theorem output_host_counterexample :
    (outputMap ⟨none, 4242, "main.go:10::main.main", "2023-01-10 10:00:00.000",
        .error "lookup failed"⟩ [("level", .string "INFO"), ("msg", .string "hello")]).get "host"
      = some (.string "")
    ∧ output ⟨"std", "ALL", "", "", false, false, 0⟩
        ⟨none, 4242, "main.go:10::main.main", "2023-01-10 10:00:00.000", .error "lookup failed"⟩
        [("level", .string "INFO"), ("msg", .string "hello")]
      = some ("level=INFO||file=main.go:10::main.main||trace_id=4242||msg=hello"
          ++ "||timestamp=2023-01-10 10:00:00.000||host=") := by
  decide

/-- C9 amended: `output` always binds `host`; when the lookup of the host name
fails the value is the empty string, the pair `host=` is among the pairs
serialised, and the line written is those pairs joined by "||". -/
theorem output_host_empty_on_lookup_failure (conf : Config) (env : Env) (m : FieldMap)
    (err : String) (hfail : env.hostname = .error err) :
    (outputMap env m).get "host" = some (.string "")
    ∧ "host=" ∈ presentPairs (outputMap env m)
    ∧ (conf.Type_ ≠ "none" →
        output conf env m = some (String.intercalate "||" (presentPairs (outputMap env m)))) := by
  have hget : (outputMap env m).get "host" = some (.string "") := by
    unfold outputMap
    simp only [hfail, hostnameText]
    exact get_set_self _ _ _
  refine ⟨hget, ?_, ?_⟩
  · unfold presentPairs
    rw [List.mem_filterMap]
    refine ⟨"host", by decide, ?_⟩
    rw [hget]
    decide
  · intro hty
    unfold output
    rw [mapToStr_eq_intercalate_aux]
    simp [hty]

/-- The witness of C9 amended: a failing lookup on a record with level and msg. -/
theorem output_host_empty_on_lookup_failure_witness :
    (outputMap ⟨none, 4242, "main.go:10::main.main", "2023-01-10 10:00:00.000",
        .error "lookup failed"⟩ [("level", .string "INFO"), ("msg", .string "hello")]).get "host"
      = some (.string "") :=
  (output_host_empty_on_lookup_failure ⟨"std", "ALL", "", "", false, false, 0⟩
    ⟨none, 4242, "main.go:10::main.main", "2023-01-10 10:00:00.000", .error "lookup failed"⟩
    [("level", .string "INFO"), ("msg", .string "hello")] "lookup failed" rfl).1

/-! ## Nil values -/

/-- C10, as the claim states it, fails: a nil map goes to the default branch of
ToString and comes out as the text `null`, not as the empty string. -/
theorem ToString_nilMap_counterexample :
    ToString Value.nilMap = "null" ∧ ToString Value.nilMap ≠ "" := by
  decide

/-- C10 amended: ToString gives the empty string for the untyped nil and for a
nil byte slice; a nil map, a nil slice of another element type and a nil pointer
are rendered by `json.Marshal`, as the text `null`. -/
theorem ToString_nil_values :
    ToString Value.nil = ""
    ∧ ToString (Value.bytes none) = ""
    ∧ ToString Value.nilMap = "null"
    ∧ ToString Value.nilSlice = "null"
    ∧ ToString Value.nilPointer = "null" := by
  decide

/-! ## The side channel -/

/-- C8, as the claim states it, fails: on a queue of capacity 1 that holds one
record the length is below 10000, so the send is attempted and the caller
blocks; the record is not dropped. -/
theorem OutPutToKafka2Algo_small_queue_counterexample :
    OutPutToKafka2Algo (SetChKafka2Algo ⟨1, ["queued"]⟩) (fun _ => some "record")
      ⟨none, 4242, "main.go:10::main.main", "2023-01-10 10:00:00.000", .ok "host1"⟩
      [("msg", .string "hello")] = Forward.blocked := by
  decide

/-- C8 amended: for a queue of capacity at least 10000 that is full, and for a
queue holding 10000 records or more, OutPutToKafka2Algo takes the else branch:
the caller does not block, the queue is left as it is and the record is
dropped. -/
theorem OutPutToKafka2Algo_full_drops (c : Chan) (marshal : FieldMap → Option String)
    (env : Env) (m : FieldMap) (hcap : 10000 ≤ c.cap) (hfull : c.buf.length = c.cap) :
    OutPutToKafka2Algo (SetChKafka2Algo c) marshal env m = Forward.dropped := by
  unfold OutPutToKafka2Algo SetChKafka2Algo
  have : ¬ c.buf.length < 10000 := by omega
  simp [this]

/-- The witness of C8 amended: a queue of capacity 10000 holding 10000 records. -/
theorem OutPutToKafka2Algo_full_drops_witness :
    OutPutToKafka2Algo (SetChKafka2Algo ⟨10000, List.replicate 10000 "queued"⟩)
      (fun _ => some "record")
      ⟨none, 4242, "main.go:10::main.main", "2023-01-10 10:00:00.000", .ok "host1"⟩
      [("msg", .string "hello")] = Forward.dropped :=
  OutPutToKafka2Algo_full_drops ⟨10000, List.replicate 10000 "queued"⟩ (fun _ => some "record")
    ⟨none, 4242, "main.go:10::main.main", "2023-01-10 10:00:00.000", .ok "host1"⟩
    [("msg", .string "hello")] (by decide) (List.length_replicate 10000 "queued")

/-! ## Digits -/

theorem digitChar_toNat (d : Nat) (h : d < 10) : (digitChar d).toNat = 48 + d := by
  interval_cases d <;> rfl

theorem digitChar_value (d : Nat) (h : d < 10) : (digitChar d).toNat - 48 = d := by
  rw [digitChar_toNat d h]; omega

theorem isDigit_digitChar (d : Nat) (h : d < 10) : isDigit (digitChar d) = true := by
  simp [isDigit, digitChar_toNat d h]; omega

theorem digitChar_ne_of_not_isDigit (d : Nat) (h : d < 10) (c : Char)
    (hc : isDigit c = false) : digitChar d ≠ c := by
  intro heq
  rw [← heq, isDigit_digitChar d h] at hc
  exact Bool.noConfusion hc

theorem appendInt_year_2000 : ∀ k : Nat, k < 100 →
    appendInt ((2000 + k : Nat) : Int) 4 = ['2', '0', digitChar (k / 10), digitChar (k % 10)] := by
  decide

theorem appendInt_two : ∀ n : Nat, n < 100 →
    appendInt (n : Int) 2 = [digitChar (n / 10), digitChar (n % 10)] := by
  decide

/-- The ten characters of an hour key of the years 2000 to 2099. -/
theorem getHourTime_data (t : Time) (ht : t.valid) (hy : 2000 ≤ t.Year ∧ t.Year ≤ 2099) :
    (getHourTime t).data =
      ['2', '0', digitChar ((t.Year - 2000).toNat / 10), digitChar ((t.Year - 2000).toNat % 10),
       digitChar (t.Month / 10), digitChar (t.Month % 10),
       digitChar (t.Day / 10), digitChar (t.Day % 10),
       digitChar (t.Hour / 10), digitChar (t.Hour % 10)] := by
  obtain ⟨h1, h2, h3, h4, h5⟩ := ht
  have hyear : t.Year = ((2000 + (t.Year - 2000).toNat : Nat) : Int) := by omega
  unfold getHourTime
  simp only []
  rw [appendInt_two t.Month (by omega), appendInt_two t.Day (by omega),
    appendInt_two t.Hour (by omega)]
  conv => lhs; rw [hyear]
  rw [appendInt_year_2000 _ (by omega)]
  rfl

/-! ## Parsing a rotated name -/

theorem Atoi_of_digits (ds : List Char) (hne : ds ≠ []) (hall : ∀ c ∈ ds, isDigit c = true)
    (hlt : digitsValue ds < 2 ^ 63) : Atoi ⟨ds⟩ = some (digitsValue ds : Int) := by
  obtain ⟨c, cs, rfl⟩ := List.exists_cons_of_ne_nil hne
  have hc : isDigit c = true := hall c (List.mem_cons_self _ _)
  have hminus : c ≠ '-' := by
    intro h; subst h; exact absurd hc (by decide)
  have hplus : c ≠ '+' := by
    intro h; subst h; exact absurd hc (by decide)
  have hall' : (c :: cs).all isDigit = true := by
    rw [List.all_eq_true]; exact hall
  unfold Atoi
  simp only [List.head?_cons, Option.some.injEq, hminus, hplus, or_self, if_false,
    decide_False, List.isEmpty_cons, hall', Bool.not_true, Bool.or_self, Bool.false_eq_true]
  have hlt' : digitsValue (c :: cs) < 9223372036854775808 := by
    have e : (2 : Nat) ^ 63 = 9223372036854775808 := by norm_num
    omega
  simp [hlt']

theorem Split_no_sep (sep : Char) (k : List Char) (h : sep ∉ k) : Split sep k = [k] := by
  induction k with
  | nil => rfl
  | cons c cs ih =>
    have hc : c ≠ sep := fun e => h (e ▸ List.mem_cons_self _ _)
    have hcs : sep ∉ cs := fun e => h (List.mem_cons_of_mem _ e)
    simp [Split, hc, ih hcs]

theorem Split_append_sep (sep : Char) (pre k : List Char) (h : sep ∉ k) :
    ∃ f fs, Split sep (pre ++ sep :: k) = (f :: fs) ++ [k] := by
  induction pre with
  | nil => exact ⟨[], [], by simp [Split, Split_no_sep sep k h]⟩
  | cons c cs ih =>
    obtain ⟨f, fs, hsplit⟩ := ih
    by_cases hc : c = sep
    · exact ⟨[], f :: fs, by simp [Split, hc, ← hsplit]⟩
    · exact ⟨c :: f, fs, by simp [Split, hc, hsplit]⟩

theorem lastSegment_append (pre k : List Char) (h : '.' ∉ k) :
    lastSegment ⟨pre ++ '.' :: k⟩ = ⟨k⟩ := by
  obtain ⟨f, fs, hsplit⟩ := Split_append_sep '.' pre k h
  unfold lastSegment
  simp only [hsplit]
  congr 1
  rw [List.getLastD_eq_getLast?, List.getLast?_append]
  simp

theorem findMatch_append (pre s : List Char) (h : matchHere s = true) :
    ∃ c cs, findMatch (pre ++ s) = some (c :: cs) := by
  induction pre with
  | nil =>
    cases s with
    | nil => exact absurd h (by decide)
    | cons c cs => exact ⟨c, cs.take 14, by simp [findMatch, h]⟩
  | cons p ps ih =>
    by_cases hm : matchHere (p :: (ps ++ s)) = true
    · exact ⟨p, (ps ++ s).take 14, by simp [findMatch, hm]⟩
    · obtain ⟨c, cs, hf⟩ := ih
      exact ⟨c, cs, by simp [findMatch, hm, hf]⟩

theorem FindString_append (pre s : List Char) (h : matchHere s = true) :
    FindString ⟨pre ++ s⟩ ≠ "" := by
  obtain ⟨c, cs, hf⟩ := findMatch_append pre s h
  unfold FindString
  simp only [hf]
  intro heq
  have := congrArg String.data heq
  simp at this

/-! ## The integer key -/

theorem toUint64_natCast (n : Nat) (h : n < 2 ^ 64) : toUint64 (n : Int) = n := by
  unfold toUint64
  have : ((n : Int) % (2 ^ 64 : Int)) = (n : Int) := by
    apply Int.emod_eq_of_lt <;> omega
  rw [this]; simp

theorem getTimeInt_eq (t : Time) (ht : t.valid) (hy : 0 ≤ t.Year ∧ t.Year ≤ maxYear) :
    (getTimeInt t : Int) = t.Year * 1000000 + t.Month * 10000 + t.Day * 100 + t.Hour := by
  obtain ⟨h1, h2, h3, h4, h5⟩ := ht
  unfold maxYear at hy
  have hyn : t.Year = (t.Year.toNat : Int) := by omega
  have e1 : toUint64 t.Year = t.Year.toNat := by
    rw [hyn]; simp only [Int.toNat_ofNat]; exact toUint64_natCast _ (by omega)
  have e2 := toUint64_natCast t.Month (by omega)
  have e3 := toUint64_natCast t.Day (by omega)
  have e4 := toUint64_natCast t.Hour (by omega)
  unfold getTimeInt
  rw [e1, e2, e3, e4]
  rw [Nat.mod_eq_of_lt (by omega)]
  push_cast
  omega

theorem getTimeInt_lt_iff_before (a b : Time) (ha : a.valid) (hb : b.valid)
    (hay : 0 ≤ a.Year ∧ a.Year ≤ maxYear) (hby : 0 ≤ b.Year ∧ b.Year ≤ maxYear) :
    getTimeInt a < getTimeInt b ↔ a.before b := by
  have ea := getTimeInt_eq a ha hay
  have eb := getTimeInt_eq b hb hby
  obtain ⟨h1, h2, h3, h4, h5⟩ := ha
  obtain ⟨g1, g2, g3, g4, g5⟩ := hb
  unfold Time.before
  constructor
  · intro h; omega
  · intro h; omega

/-! ## Retention under the hourly policy -/

theorem digitsValue_getHourTime (t : Time) (ht : t.valid)
    (hy : 2000 ≤ t.Year ∧ t.Year ≤ 2099) :
    (digitsValue (getHourTime t).data : Int)
      = t.Year * 1000000 + t.Month * 10000 + t.Day * 100 + t.Hour := by
  rw [getHourTime_data t ht hy]
  obtain ⟨h1, h2, h3, h4, h5⟩ := ht
  have c2 : ('2' : Char).toNat - 48 = 2 := rfl
  have c0 : ('0' : Char).toNat - 48 = 0 := rfl
  simp only [digitsValue, List.foldl_cons, List.foldl_nil, c2, c0,
    digitChar_value ((t.Year - 2000).toNat / 10) (by omega),
    digitChar_value ((t.Year - 2000).toNat % 10) (by omega),
    digitChar_value (t.Month / 10) (by omega), digitChar_value (t.Month % 10) (by omega),
    digitChar_value (t.Day / 10) (by omega), digitChar_value (t.Day % 10) (by omega),
    digitChar_value (t.Hour / 10) (by omega), digitChar_value (t.Hour % 10) (by omega)]
  push_cast
  omega

theorem isDigit_getHourTime (t : Time) (ht : t.valid) (hy : 2000 ≤ t.Year ∧ t.Year ≤ 2099) :
    ∀ c ∈ (getHourTime t).data, isDigit c = true := by
  rw [getHourTime_data t ht hy]
  obtain ⟨h1, h2, h3, h4, h5⟩ := ht
  have d2 : isDigit '2' = true := by decide
  have d0 : isDigit '0' = true := by decide
  intro c hc
  simp only [List.mem_cons, List.mem_singleton, List.not_mem_nil, or_false] at hc
  rcases hc with h | h | h | h | h | h | h | h | h | h <;> subst h
  · exact d2
  · exact d0
  all_goals exact isDigit_digitChar _ (by omega)

theorem matchHere_log_getHourTime (t : Time) (ht : t.valid)
    (hy : 2000 ≤ t.Year ∧ t.Year ≤ 2099) :
    matchHere ('.' :: 'l' :: 'o' :: 'g' :: '.' :: (getHourTime t).data) = true := by
  have hall := isDigit_getHourTime t ht hy
  rw [getHourTime_data t ht hy] at hall ⊢
  simp only [List.mem_cons, List.mem_singleton, List.not_mem_nil, or_false, forall_eq_or_imp,
    forall_eq] at hall
  obtain ⟨-, -, a1, a2, a3, a4, a5, a6, a7, a8⟩ := hall
  simp [matchHere, List.isPrefixOf, a1, a2, a3, a4, a5, a6, a7, a8]

theorem sweepDeletes_hour_name (basename : String) (t c : Time) (ht : t.valid)
    (hy : 2000 ≤ t.Year ∧ t.Year ≤ 2099) :
    sweepDeletes (basename ++ ".log." ++ getHourTime t) c
      = decide (getTimeInt t < getTimeInt c) := by
  have hall := isDigit_getHourTime t ht hy
  have hval := digitsValue_getHourTime t ht hy
  have hteq := getTimeInt_eq t ht ⟨by omega, by unfold maxYear; omega⟩
  have hnodot : '.' ∉ (getHourTime t).data := by
    intro hmem
    exact absurd (hall '.' hmem) (by decide)
  have hne : (getHourTime t).data ≠ [] := by
    rw [getHourTime_data t ht hy]; simp
  have hnat : digitsValue (getHourTime t).data = getTimeInt t := by
    have : (digitsValue (getHourTime t).data : Int) = (getTimeInt t : Int) := by
      rw [hval, hteq]
    exact_mod_cast this
  have hlt64 : getTimeInt t < 2 ^ 64 := by
    unfold getTimeInt; exact Nat.mod_lt _ (by norm_num)
  have hlt63 : digitsValue (getHourTime t).data < 2 ^ 63 := by
    obtain ⟨h1, h2, h3, h4, h5⟩ := ht
    have e : (2 : Nat) ^ 63 = 9223372036854775808 := by norm_num
    have : (digitsValue (getHourTime t).data : Int) < 9223372036854775808 := by
      rw [hval]; omega
    omega
  have hatoi : Atoi (getHourTime t) = some (getTimeInt t : Int) := by
    have := Atoi_of_digits (getHourTime t).data hne hall hlt63
    rw [hnat] at this
    exact this
  have hname1 : basename ++ ".log." ++ getHourTime t
      = ⟨basename.data ++ ('.' :: 'l' :: 'o' :: 'g' :: '.' :: (getHourTime t).data)⟩ := by
    apply String.ext
    simp [String.data_append]
  have hname2 : basename ++ ".log." ++ getHourTime t
      = ⟨(basename.data ++ ['.', 'l', 'o', 'g']) ++ '.' :: (getHourTime t).data⟩ := by
    apply String.ext
    simp [String.data_append]
  have hfind : FindString (basename ++ ".log." ++ getHourTime t) ≠ "" := by
    rw [hname1]
    exact FindString_append _ _ (matchHere_log_getHourTime t ht hy)
  have hlast : lastSegment (basename ++ ".log." ++ getHourTime t) = getHourTime t := by
    rw [hname2, lastSegment_append _ _ hnodot]
  unfold sweepDeletes shouldDel
  rw [hlast, hatoi]
  simp only [toUint64_natCast _ hlt64]
  simp [hfind]

/-- C5, as the claim states it, fails: a cutoff in a year before year 0 (here
the cutoff 800000 days before 2023-01-10, in year -168) is turned by `uint64`
into a key larger than every file key, so the file of 2023-01-10 09h is deleted
although its hour is later than the cutoff. -/
theorem hourly_sweep_counterexample :
    AddDate ⟨2023, 1, 10, 10⟩ (-800000) = ⟨-168, 9, 13, 10⟩
    ∧ sweepDeletes ("app" ++ ".log." ++ getHourTime ⟨2023, 1, 10, 9⟩) ⟨-168, 9, 13, 10⟩ = true
    ∧ ¬ (Time.before ⟨2023, 1, 10, 9⟩ ⟨-168, 9, 13, 10⟩)
    ∧ getTimeInt ⟨-168, 9, 13, 10⟩ = 18446744073541642926
    ∧ ¬ (getTimeInt ⟨2023, 1, 10, 9⟩ < getTimeInt ⟨-168, 9, 13, 10⟩
          → Time.before ⟨2023, 1, 10, 9⟩ ⟨-168, 9, 13, 10⟩) := by
  decide

/-- C5 amended: for a time `t` of the years 2000 to 2099 and a cutoff `c` of a
year from 0 on, the hour key of `t` read as a decimal integer is
`getTimeInt(t) = year*10^6 + month*10^4 + day*10^2 + hour`, getTimeInt is
strictly order-preserving on the tuples (year, month, day, hour) of such years,
and the sweep deletes the file `<basename>.log.<getHourTime(t)>` exactly when
the date and hour of `t` are strictly earlier than those of `c`; a file of the
cutoff hour is kept. -/
theorem hourly_sweep_deletes_iff_before (basename : String) (t c : Time) (ht : t.valid)
    (hc : c.valid) (hty : 2000 ≤ t.Year ∧ t.Year ≤ 2099)
    (hcy : 0 ≤ c.Year ∧ c.Year ≤ maxYear) :
    Atoi (getHourTime t) = some (getTimeInt t : Int)
    ∧ (getTimeInt t : Int) = t.Year * 1000000 + t.Month * 10000 + t.Day * 100 + t.Hour
    ∧ (∀ a b : Time, a.valid → b.valid → 0 ≤ a.Year ∧ a.Year ≤ maxYear →
        0 ≤ b.Year ∧ b.Year ≤ maxYear → (getTimeInt a < getTimeInt b ↔ a.before b))
    ∧ (sweepDeletes (basename ++ ".log." ++ getHourTime t) c = true ↔ t.before c)
    ∧ (t.Year = c.Year → t.Month = c.Month → t.Day = c.Day → t.Hour = c.Hour →
        sweepDeletes (basename ++ ".log." ++ getHourTime t) c = false) := by
  have hty' : 0 ≤ t.Year ∧ t.Year ≤ maxYear := ⟨by omega, by unfold maxYear; omega⟩
  have hteq := getTimeInt_eq t ht hty'
  have hiff : sweepDeletes (basename ++ ".log." ++ getHourTime t) c = true ↔ t.before c := by
    rw [sweepDeletes_hour_name basename t c ht hty, decide_eq_true_iff]
    exact getTimeInt_lt_iff_before t c ht hc hty' hcy
  refine ⟨?_, hteq, fun a b ha hb hay hby => getTimeInt_lt_iff_before a b ha hb hay hby,
    hiff, ?_⟩
  · have hall := isDigit_getHourTime t ht hty
    have hval := digitsValue_getHourTime t ht hty
    have hne : (getHourTime t).data ≠ [] := by
      rw [getHourTime_data t ht hty]; simp
    have hnat : digitsValue (getHourTime t).data = getTimeInt t := by
      have : (digitsValue (getHourTime t).data : Int) = (getTimeInt t : Int) := by
        rw [hval, hteq]
      exact_mod_cast this
    have hlt63 : digitsValue (getHourTime t).data < 2 ^ 63 := by
      obtain ⟨h1, h2, h3, h4, h5⟩ := ht
      have e : (2 : Nat) ^ 63 = 9223372036854775808 := by norm_num
      have : (digitsValue (getHourTime t).data : Int) < 9223372036854775808 := by
        rw [hval]; omega
      omega
    have := Atoi_of_digits (getHourTime t).data hne hall hlt63
    rw [hnat] at this
    exact this
  · intro e1 e2 e3 e4
    cases hs : sweepDeletes (basename ++ ".log." ++ getHourTime t) c with
    | false => rfl
    | true =>
      have hb := hiff.mp hs
      unfold Time.before at hb
      omega

/-- The witness of C5 amended: the file of 2023-01-02 23h against the cutoff
2023-01-03 00h. -/
theorem hourly_sweep_deletes_iff_before_witness :
    (sweepDeletes ("app" ++ ".log." ++ getHourTime ⟨2023, 1, 2, 23⟩) ⟨2023, 1, 3, 0⟩ = true
      ↔ Time.before ⟨2023, 1, 2, 23⟩ ⟨2023, 1, 3, 0⟩) :=
  (hourly_sweep_deletes_iff_before "app" ⟨2023, 1, 2, 23⟩ ⟨2023, 1, 3, 0⟩ (by decide)
    (by decide) (by decide) (by decide)).2.2.2.1

/-! ## Day keys tell days apart -/

theorem digitsValue_append_single (xs : List Char) (c : Char) :
    digitsValue (xs ++ [c]) = digitsValue xs * 10 + (c.toNat - 48) := by
  simp [digitsValue, List.foldl_append]

theorem digitsValue_decimalAux (fuel n : Nat) (h : n < fuel) :
    digitsValue (decimalAux fuel n) = n := by
  induction fuel generalizing n with
  | zero => omega
  | succ f ih =>
    unfold decimalAux
    by_cases hn : n < 10
    · simp only [hn, if_true]
      simp [digitsValue, digitChar_value n hn]
    · simp only [hn, if_false]
      rw [digitsValue_append_single, ih (n / 10) (by omega),
        digitChar_value (n % 10) (by omega)]
      omega

theorem isDigit_decimalAux (fuel n : Nat) : ∀ c ∈ decimalAux fuel n, isDigit c = true := by
  induction fuel generalizing n with
  | zero => intro c hc; simp [decimalAux] at hc
  | succ f ih =>
    intro c hc
    unfold decimalAux at hc
    by_cases hn : n < 10
    · simp only [hn, if_true, List.mem_singleton] at hc
      subst hc
      exact isDigit_digitChar n hn
    · simp only [hn, if_false, List.mem_append, List.mem_singleton] at hc
      rcases hc with hc | hc
      · exact ih _ c hc
      · subst hc
        exact isDigit_digitChar _ (by omega)

theorem decimal_ne_nil (n : Nat) : decimal n ≠ [] := by
  unfold decimal decimalAux
  by_cases hn : n < 10 <;> simp [hn]

theorem digitsValue_zeros (k : Nat) (xs : List Char) :
    digitsValue (List.replicate k '0' ++ xs) = digitsValue xs := by
  induction k with
  | zero => simp
  | succ k ih =>
    have c0 : ('0' : Char).toNat - 48 = 0 := rfl
    have : digitsValue ('0' :: (List.replicate k '0' ++ xs))
        = digitsValue (List.replicate k '0' ++ xs) := by
      simp [digitsValue, c0]
    rw [List.replicate_succ, List.cons_append, this, ih]

theorem signedValue_appendInt (x : Int) (width : Nat) : signedValue (appendInt x width) = x := by
  have hval : digitsValue (List.replicate (width - (decimal x.natAbs).length) '0'
      ++ decimal x.natAbs) = x.natAbs := by
    rw [digitsValue_zeros]
    exact digitsValue_decimalAux _ _ (by omega)
  by_cases hx : x < 0
  · have happ : appendInt x width = '-' :: (List.replicate
        (width - (decimal x.natAbs).length) '0' ++ decimal x.natAbs) := by
      simp [appendInt, hx]
    rw [happ]
    unfold signedValue
    rw [List.head?_cons, if_pos rfl, List.tail_cons, hval]
    omega
  · have happ : appendInt x width = List.replicate
        (width - (decimal x.natAbs).length) '0' ++ decimal x.natAbs := by
      simp [appendInt, hx]
    rw [happ]
    have hdig : ∀ c ∈ List.replicate (width - (decimal x.natAbs).length) '0'
        ++ decimal x.natAbs, isDigit c = true := by
      intro c hc
      rw [List.mem_append] at hc
      rcases hc with hc | hc
      · rw [List.mem_replicate] at hc
        rw [hc.2]; decide
      · exact isDigit_decimalAux _ _ c hc
    have hhead : (List.replicate (width - (decimal x.natAbs).length) '0'
        ++ decimal x.natAbs).head? ≠ some '-' := by
      intro hh
      have hmem := List.mem_of_mem_head? hh
      exact absurd (hdig '-' hmem) (by decide)
    unfold signedValue
    rw [if_neg hhead, hval]
    omega

theorem appendInt_inj (x y : Int) (width : Nat) (h : appendInt x width = appendInt y width) :
    x = y := by
  rw [← signedValue_appendInt x width, ← signedValue_appendInt y width, h]

theorem digitChar_inj (a b : Nat) (ha : a < 10) (hb : b < 10) (h : digitChar a = digitChar b) :
    a = b := by
  have := congrArg Char.toNat h
  rw [digitChar_toNat a ha, digitChar_toNat b hb] at this
  omega

theorem getDayTime_sameDay (a b : Time) (h : a.sameDay b) : getDayTime a = getDayTime b := by
  obtain ⟨h1, h2, h3⟩ := h
  unfold getDayTime
  rw [h1, h2, h3]

theorem sameDay_of_getDayTime (a b : Time) (ha : a.valid) (hb : b.valid)
    (h : getDayTime a = getDayTime b) : a.sameDay b := by
  obtain ⟨a1, a2, a3, a4, a5⟩ := ha
  obtain ⟨b1, b2, b3, b4, b5⟩ := hb
  have hd := congrArg String.data h
  unfold getDayTime at hd
  simp only [] at hd
  rw [appendInt_two a.Month (by omega), appendInt_two a.Day (by omega),
    appendInt_two b.Month (by omega), appendInt_two b.Day (by omega)] at hd
  obtain ⟨hym, hdd⟩ := List.append_inj' hd rfl
  obtain ⟨hyy, hmm⟩ := List.append_inj' hym rfl
  have hY := appendInt_inj _ _ _ hyy
  simp only [List.cons.injEq, and_true] at hmm hdd
  have m1 := digitChar_inj _ _ (by omega) (by omega) hmm.1
  have m2 := digitChar_inj _ _ (by omega) (by omega) hmm.2
  have d1 := digitChar_inj _ _ (by omega) (by omega) hdd.1
  have d2 := digitChar_inj _ _ (by omega) (by omega) hdd.2
  exact ⟨hY, by omega, by omega⟩

/-! ## The daemon -/

theorem renamesOf_append (a b : List Effect) :
    renamesOf (a ++ b) = renamesOf a ++ renamesOf b := by
  simp [renamesOf, List.filterMap_append]

theorem opensOf_append (a b : List Effect) : opensOf (a ++ b) = opensOf a ++ opensOf b := by
  simp [opensOf, List.filterMap_append]

theorem removesOf_append (a b : List Effect) :
    removesOf (a ++ b) = removesOf a ++ removesOf b := by
  simp [removesOf, List.filterMap_append]

theorem renamesOf_map_remove (ps : List Path) : renamesOf (ps.map Effect.remove) = [] := by
  induction ps with
  | nil => rfl
  | cons q qs ih => simp [renamesOf]

theorem opensOf_map_remove (ps : List Path) : opensOf (ps.map Effect.remove) = [] := by
  induction ps with
  | nil => rfl
  | cons q qs ih => simp [opensOf]

theorem removesOf_map_remove (ps : List Path) : removesOf (ps.map Effect.remove) = ps := by
  induction ps with
  | nil => rfl
  | cons q qs ih => simpa [removesOf] using ih

/-- The paths the sweep of one iteration removes. -/
theorem sweepStep_eq (l : Log) (w : Tick) :
    ∃ ps : List Path, sweepStep l w = ps.map Effect.remove
      ∧ ∀ name, (⟨l.config.Dir, name⟩ : Path) ∈ ps ↔
          ∃ files, w.files = some files ∧ name ∈ files
            ∧ sweepDeletes name (AddDate w.sweepNow (-l.config.KeepDays)) = true := by
  unfold sweepStep
  cases hf : w.files with
  | none => exact ⟨[], by simp⟩
  | some files =>
    refine ⟨(files.filter (fun name =>
      sweepDeletes name (AddDate w.sweepNow (-l.config.KeepDays)))).map
        (fun name => (⟨l.config.Dir, name⟩ : Path)), by simp [List.map_map], ?_⟩
    intro name
    simp [List.mem_map, List.mem_filter]

theorem rotateStep_same (l : Log) (w : Tick)
    (h : getCurrentTime l.config w.now = l.rotateTime) : rotateStep l w = (some l, []) := by
  unfold rotateStep
  simp [h]

theorem rotateDaemonTick_same (l : Log) (w : Tick)
    (h : getCurrentTime l.config w.now = l.rotateTime) :
    rotateDaemonTick l w = (some l, sweepStep l w) := by
  unfold rotateDaemonTick
  rw [rotateStep_same l w h]
  simp

theorem rotateStep_rotate (l : Log) (w : Tick) (hfile : l.config.Type_ = "file")
    (h : getCurrentTime l.config w.now ≠ l.rotateTime) :
    renamesOf (rotateStep l w).2 = [(⟨l.config.Dir, l.config.FileName⟩,
          ⟨l.config.Dir, l.config.FileName ++ ("." ++ l.rotateTime)⟩)]
      ∧ opensOf (rotateStep l w).2 = [⟨l.config.Dir, l.config.FileName⟩]
      ∧ removesOf (rotateStep l w).2 = []
      ∧ (rotateStep l w).1 = (match w.openErr with
          | none => some { l with logger := .file ⟨l.config.Dir, l.config.FileName⟩,
                                  rotateTime := getCurrentTime l.config w.now }
          | some _ => none) := by
  unfold rotateStep newLogger
  cases ho : w.openErr <;> cases hr : w.renameErr <;>
    simp [h, hfile, renamesOf, opensOf, removesOf]

theorem renamesOf_sweepStep (l : Log) (w : Tick) : renamesOf (sweepStep l w) = [] := by
  obtain ⟨ps, hps, -⟩ := sweepStep_eq l w
  rw [hps, renamesOf_map_remove]

theorem opensOf_sweepStep (l : Log) (w : Tick) : opensOf (sweepStep l w) = [] := by
  obtain ⟨ps, hps, -⟩ := sweepStep_eq l w
  rw [hps, opensOf_map_remove]

theorem rotateDaemonTick_rotate (l : Log) (w : Tick) (hfile : l.config.Type_ = "file")
    (h : getCurrentTime l.config w.now ≠ l.rotateTime) :
    renamesOf (rotateDaemonTick l w).2 = [(⟨l.config.Dir, l.config.FileName⟩,
          ⟨l.config.Dir, l.config.FileName ++ ("." ++ l.rotateTime)⟩)]
      ∧ opensOf (rotateDaemonTick l w).2 = [⟨l.config.Dir, l.config.FileName⟩]
      ∧ (rotateDaemonTick l w).1 = (match w.openErr with
          | none => some { l with logger := .file ⟨l.config.Dir, l.config.FileName⟩,
                                  rotateTime := getCurrentTime l.config w.now }
          | some _ => none) := by
  obtain ⟨h1, h2, -, h4⟩ := rotateStep_rotate l w hfile h
  unfold rotateDaemonTick
  rcases hr : rotateStep l w with ⟨_ | l', e⟩
  · rw [hr] at h1 h2 h4
    exact ⟨h1, h2, h4⟩
  · rw [hr] at h1 h2 h4
    simp only [renamesOf_append, opensOf_append, renamesOf_sweepStep, opensOf_sweepStep,
      List.append_nil]
    exact ⟨h1, h2, h4⟩

theorem runTicks_cons_same (l : Log) (w : Tick) (ws : List Tick)
    (h : getCurrentTime l.config w.now = l.rotateTime) :
    runTicks l (w :: ws) = ((runTicks l ws).1, sweepStep l w ++ (runTicks l ws).2) := by
  rw [runTicks, rotateDaemonTick_same l w h]

theorem runTicks_append_same (l : Log) (pre ys : List Tick)
    (h : ∀ w ∈ pre, getCurrentTime l.config w.now = l.rotateTime) :
    (runTicks l (pre ++ ys)).1 = (runTicks l ys).1
    ∧ renamesOf (runTicks l (pre ++ ys)).2 = renamesOf (runTicks l ys).2
    ∧ opensOf (runTicks l (pre ++ ys)).2 = opensOf (runTicks l ys).2 := by
  induction pre with
  | nil => simp
  | cons w ws ih =>
    have hw := h w (List.mem_cons_self _ _)
    obtain ⟨i1, i2, i3⟩ := ih (fun x hx => h x (List.mem_cons_of_mem _ hx))
    rw [List.cons_append, runTicks_cons_same l w _ hw]
    simp only [renamesOf_append, opensOf_append, renamesOf_sweepStep, opensOf_sweepStep,
      List.nil_append]
    exact ⟨i1, i2, i3⟩

theorem runTicks_same (l : Log) (ticks : List Tick)
    (h : ∀ w ∈ ticks, getCurrentTime l.config w.now = l.rotateTime) :
    (runTicks l ticks).1 = some l ∧ renamesOf (runTicks l ticks).2 = []
    ∧ opensOf (runTicks l ticks).2 = [] := by
  have := runTicks_append_same l ticks [] h
  simpa [runTicks, renamesOf, opensOf] using this

/-! ## Rotation at midnight -/

/-- C6: under the daily policy with file output, from a stored key equal to the
key of the first day (as InitByConf sets it), ticks that stay on the first day
and then move to a second day perform exactly one rename, from dir/filename to
dir/filename.<key of the first day>, open dir/filename once, and leave the key
of the second day stored; a tick whose current key equals the stored key renames
nothing and leaves the state as it is. -/
theorem daily_rotation_one_rename (l0 : Log) (d1 d2 : Time) (pre rest : List Tick) (w0 : Tick)
    (hfile : l0.config.Type_ = "file") (hdaily : l0.config.RotateByDaily = true)
    (hkey : l0.rotateTime = getDayTime d1)
    (hd1 : d1.valid) (hd2 : d2.valid) (hne : ¬ d1.sameDay d2)
    (hpre : ∀ w ∈ pre, w.now.sameDay d1)
    (hpost : ∀ w ∈ w0 :: rest, w.now.sameDay d2) :
    renamesOf (runTicks l0 (pre ++ w0 :: rest)).2
      = [(⟨l0.config.Dir, l0.config.FileName⟩,
          ⟨l0.config.Dir, l0.config.FileName ++ ("." ++ getDayTime d1)⟩)]
    ∧ opensOf (runTicks l0 (pre ++ w0 :: rest)).2 = [⟨l0.config.Dir, l0.config.FileName⟩]
    ∧ (w0.openErr = none → ∃ l', (runTicks l0 (pre ++ w0 :: rest)).1 = some l'
        ∧ l'.rotateTime = getDayTime d2
        ∧ l'.logger = Target.file ⟨l0.config.Dir, l0.config.FileName⟩)
    ∧ (∀ (p : Proc) (now : Time), ∃ p', (InitByConf p l0.config now none).1 = some p'
        ∧ p'.log.rotateTime = getDayTime now ∧ p'.log.config = l0.config
        ∧ p'.daemons = p.daemons + 1)
    ∧ (∀ (l : Log) (w : Tick), getCurrentTime l.config w.now = l.rotateTime →
        renamesOf (rotateDaemonTick l w).2 = [] ∧ opensOf (rotateDaemonTick l w).2 = []
        ∧ (rotateDaemonTick l w).1 = some l) := by
  have hcur : ∀ (l : Log) (t : Time), l.config = l0.config →
      getCurrentTime l.config t = getDayTime t := by
    intro l t hl
    simp [getCurrentTime, hl, hdaily]
  have hkeys : getDayTime d2 ≠ getDayTime d1 := by
    intro heq
    exact hne (sameDay_of_getDayTime d1 d2 hd1 hd2 heq.symm)
  have hpre' : ∀ w ∈ pre, getCurrentTime l0.config w.now = l0.rotateTime := by
    intro w hw
    rw [hcur l0 w.now rfl, hkey]
    exact getDayTime_sameDay _ _ (hpre w hw)
  have hw0 : getCurrentTime l0.config w0.now = getDayTime d2 := by
    rw [hcur l0 w0.now rfl]
    exact getDayTime_sameDay _ _ (hpost w0 (List.mem_cons_self _ _))
  have hw0ne : getCurrentTime l0.config w0.now ≠ l0.rotateTime := by
    rw [hw0, hkey]; exact hkeys
  obtain ⟨p1, p2, p3⟩ := runTicks_append_same l0 pre (w0 :: rest) hpre'
  obtain ⟨t1, t2, t3⟩ := rotateDaemonTick_rotate l0 w0 hfile hw0ne
  rw [hkey] at t1
  have hrun : renamesOf (runTicks l0 (w0 :: rest)).2
        = [(⟨l0.config.Dir, l0.config.FileName⟩,
            ⟨l0.config.Dir, l0.config.FileName ++ ("." ++ getDayTime d1)⟩)]
      ∧ opensOf (runTicks l0 (w0 :: rest)).2 = [⟨l0.config.Dir, l0.config.FileName⟩]
      ∧ (w0.openErr = none → ∃ l', (runTicks l0 (w0 :: rest)).1 = some l'
          ∧ l'.rotateTime = getDayTime d2
          ∧ l'.logger = Target.file ⟨l0.config.Dir, l0.config.FileName⟩) := by
    rw [runTicks]
    rcases htick : rotateDaemonTick l0 w0 with ⟨_ | l', e⟩
    · rw [htick] at t1 t2 t3
      refine ⟨t1, t2, ?_⟩
      intro hopen
      rw [hopen] at t3
      simp at t3
    · rw [htick] at t1 t2 t3
      have hl' : w0.openErr = none ∧ l' = { l0 with
          logger := .file ⟨l0.config.Dir, l0.config.FileName⟩,
          rotateTime := getCurrentTime l0.config w0.now } := by
        cases ho : w0.openErr with
        | none => rw [ho] at t3; simp at t3; exact ⟨rfl, t3⟩
        | some err => rw [ho] at t3; simp at t3
      have hconf : l'.config = l0.config := by rw [hl'.2]
      have hrot : l'.rotateTime = getDayTime d2 := by rw [hl'.2]; exact hw0
      have hrest : ∀ w ∈ rest, getCurrentTime l'.config w.now = l'.rotateTime := by
        intro w hw
        rw [hcur l' w.now hconf, hrot]
        exact getDayTime_sameDay _ _ (hpost w (List.mem_cons_of_mem _ hw))
      obtain ⟨s1, s2, s3⟩ := runTicks_same l' rest hrest
      simp only [renamesOf_append, opensOf_append, s2, s3, List.append_nil]
      refine ⟨t1, t2, ?_⟩
      intro _
      exact ⟨l', s1, hrot, by rw [hl'.2]⟩
  refine ⟨by rw [p2]; exact hrun.1, by rw [p3]; exact hrun.2.1, ?_, ?_, ?_⟩
  · intro hopen
    rw [p1]
    exact hrun.2.2 hopen
  · intro p now
    refine ⟨{ log := { logger := .file ⟨l0.config.Dir, l0.config.FileName⟩,
                       config := l0.config, rotateTime := getCurrentTime l0.config now },
              daemons := p.daemons + 1 }, ?_, ?_, rfl, rfl⟩
    · simp [InitByConf, newLogger, hfile]
    · simp [getCurrentTime, hdaily]
  · intro l w h
    rw [rotateDaemonTick_same l w h]
    exact ⟨renamesOf_sweepStep l w, opensOf_sweepStep l w, rfl⟩

/-- The witness of C6: one tick at 23h on 2023-01-10, then two ticks at 0h on
2023-01-11, with stored key 20230110. -/
theorem daily_rotation_one_rename_witness :
    renamesOf (runTicks
      ⟨.file ⟨"/var/log", "app.log"⟩, ⟨"file", "INFO", "/var/log", "app.log", true, false, 7⟩,
        "20230110"⟩
      ([⟨⟨2023, 1, 10, 23⟩, none, none, some [], ⟨2023, 1, 10, 23⟩⟩]
        ++ ⟨⟨2023, 1, 11, 0⟩, none, none, some [], ⟨2023, 1, 11, 0⟩⟩
        :: [⟨⟨2023, 1, 11, 0⟩, none, none, some [], ⟨2023, 1, 11, 0⟩⟩])).2
      = [(⟨"/var/log", "app.log"⟩, ⟨"/var/log", "app.log" ++ ("." ++ getDayTime ⟨2023, 1, 10, 0⟩)⟩)]
    ∧ getDayTime ⟨2023, 1, 10, 0⟩ = "20230110" :=
  ⟨(daily_rotation_one_rename
      ⟨.file ⟨"/var/log", "app.log"⟩, ⟨"file", "INFO", "/var/log", "app.log", true, false, 7⟩,
        "20230110"⟩
      ⟨2023, 1, 10, 0⟩ ⟨2023, 1, 11, 0⟩
      [⟨⟨2023, 1, 10, 23⟩, none, none, some [], ⟨2023, 1, 10, 23⟩⟩]
      [⟨⟨2023, 1, 11, 0⟩, none, none, some [], ⟨2023, 1, 11, 0⟩⟩]
      ⟨⟨2023, 1, 11, 0⟩, none, none, some [], ⟨2023, 1, 11, 0⟩⟩
      rfl rfl (by decide) (by decide) (by decide) (by decide) (by decide) (by decide)).1,
   by decide⟩

/-! ## Retention under the daily policy -/

/-- C4 at its own witness: with the daily policy, keepDays = 7 and the clock at
2023-01-10 (cutoff 2023-01-03), the sweep over the rotated files of suffix
20230101, 20230105 and 20230110 removes nothing.  The pattern of rotateDaemon
asks for ten digits after `.log.` and a day key has eight, so no name passes
the filter; shouldDel by itself would delete all three, since it compares the
eight-digit key with the ten-digit key of the cutoff. -/
theorem daily_sweep_removes_nothing :
    AddDate ⟨2023, 1, 10, 12⟩ (-7) = ⟨2023, 1, 3, 12⟩
    ∧ getDayTime ⟨2023, 1, 1, 0⟩ = "20230101"
    ∧ sweepStep
        ⟨.file ⟨"/var/log", "app.log"⟩,
          ⟨"file", "INFO", "/var/log", "app.log", true, false, 7⟩, "20230110"⟩
        ⟨⟨2023, 1, 10, 12⟩, none, none,
          some ["app.log", "app.log.20230101", "app.log.20230105", "app.log.20230110"],
          ⟨2023, 1, 10, 12⟩⟩ = []
    ∧ FindString "app.log.20230101" = ""
    ∧ sweepDeletes "app.log.20230101" ⟨2023, 1, 3, 12⟩ = false
    ∧ shouldDel "app.log.20230101" ⟨2023, 1, 3, 12⟩ = true
    ∧ shouldDel "app.log.20230105" ⟨2023, 1, 3, 12⟩ = true
    ∧ shouldDel "app.log.20230110" ⟨2023, 1, 3, 12⟩ = true := by
  decide

/-! ## The daemon without a rotation policy -/

/-- C7, as the claim states it, fails: with file output and no rotation policy
InitByConf starts the daemon, and its tick removes a listed file that matches
the pattern and lies before the cutoff. -/
theorem no_policy_sweep_counterexample :
    InitByConf initial ⟨"file", "INFO", "/var/log", "app.log", false, false, 7⟩
        ⟨2023, 1, 10, 12⟩ none
      = (some ⟨⟨.file ⟨"/var/log", "app.log"⟩,
            ⟨"file", "INFO", "/var/log", "app.log", false, false, 7⟩, ""⟩, 1⟩,
          [Effect.openFile ⟨"/var/log", "app.log"⟩])
    ∧ procTick ⟨⟨.file ⟨"/var/log", "app.log"⟩,
            ⟨"file", "INFO", "/var/log", "app.log", false, false, 7⟩, ""⟩, 1⟩
        ⟨⟨2023, 1, 10, 12⟩, none, none, some ["app.log", "app.log.2019071016"],
          ⟨2023, 1, 10, 12⟩⟩
      = (some ⟨⟨.file ⟨"/var/log", "app.log"⟩,
            ⟨"file", "INFO", "/var/log", "app.log", false, false, 7⟩, ""⟩, 1⟩,
          [Effect.remove ⟨"/var/log", "app.log.2019071016"⟩]) := by
  decide

/-- C7 amended: when the output mode is not file-backed InitByConf starts no
daemon, and no tick renames or deletes anything.  When no rotation policy is
configured the key is the empty text; a daemon tick whose stored key is that
text renames no file and leaves the state as it is, while its retention sweep
still removes exactly the listed names that match the pattern and lie before
the cutoff. -/
theorem daemon_without_policy (conf : Config) :
    (conf.Type_ ≠ "file" → ∀ (now : Time) (openErr : Option String),
      ∃ p', InitByConf initial conf now openErr = (some p', []) ∧ p'.daemons = 0
        ∧ ∀ w : Tick, procTick p' w = (some p', []))
    ∧ (conf.RotateByDaily = false → conf.RotateByHour = false →
        (∀ now : Time, getCurrentTime conf now = "")
        ∧ ∀ (l : Log) (w : Tick), l.config = conf → l.rotateTime = "" →
            (rotateDaemonTick l w).1 = some l
            ∧ renamesOf (rotateDaemonTick l w).2 = []
            ∧ ∀ name, (⟨conf.Dir, name⟩ : Path) ∈ removesOf (rotateDaemonTick l w).2 ↔
                ∃ files, w.files = some files ∧ name ∈ files
                  ∧ sweepDeletes name (AddDate w.sweepNow (-conf.KeepDays)) = true) := by
  constructor
  · intro hty now openErr
    refine ⟨{ log := { logger := .stdout, config := conf,
                       rotateTime := getCurrentTime conf now }, daemons := 0 }, ?_, rfl, ?_⟩
    · simp [InitByConf, newLogger, hty, initial]
    · intro w
      simp [procTick]
  · intro hd hh
    have hcur : ∀ now : Time, getCurrentTime conf now = "" := by
      intro now
      simp [getCurrentTime, hd, hh]
    refine ⟨hcur, ?_⟩
    intro l w hl hr
    have hsame : getCurrentTime l.config w.now = l.rotateTime := by
      rw [hl, hr]; exact hcur w.now
    rw [rotateDaemonTick_same l w hsame]
    refine ⟨rfl, renamesOf_sweepStep l w, ?_⟩
    intro name
    obtain ⟨ps, hps, hmem⟩ := sweepStep_eq l w
    simp only [hps, removesOf_map_remove]
    rw [← hl]
    exact hmem name

/-- The witness of C7 amended: the configuration of type "std" starts no daemon,
and under file output without a policy the tick over a listing renames
nothing. -/
theorem daemon_without_policy_witness :
    (∃ p', InitByConf initial ⟨"std", "INFO", "", "", false, false, 7⟩ ⟨2023, 1, 10, 12⟩ none
        = (some p', []) ∧ p'.daemons = 0 ∧ ∀ w : Tick, procTick p' w = (some p', []))
    ∧ renamesOf (rotateDaemonTick
        ⟨.file ⟨"/var/log", "app.log"⟩,
          ⟨"file", "INFO", "/var/log", "app.log", false, false, 7⟩, ""⟩
        ⟨⟨2023, 1, 10, 12⟩, none, none, some ["app.log", "app.log.2019071016"],
          ⟨2023, 1, 10, 12⟩⟩).2 = [] :=
  ⟨(daemon_without_policy ⟨"std", "INFO", "", "", false, false, 7⟩).1 (by decide)
      ⟨2023, 1, 10, 12⟩ none,
   (((daemon_without_policy ⟨"file", "INFO", "/var/log", "app.log", false, false, 7⟩).2
      rfl rfl).2 _ _ rfl rfl).2.1⟩

end SykLog
